import Mathlib

set_option maxRecDepth 40000
set_option autoImplicit false

/-!
Shallow embedding of the WAV tooling of M5PomodoroNG:
`tools/generate_sounds.py` (sine-tone synthesis and WAV writing) and
`tools/wav2array.py` (WAV header parsing and C-array rendering).

A byte stream is a `List Nat` whose entries are below 256; PCM samples are
integers.  Python's `struct.pack`/`struct.unpack` little-endian fields are
modelled by explicit fixed-width encode/decode functions, and the partial
file written before a failing `struct.pack` is tracked explicitly.
-/

/-- Little-endian bytes of a 16-bit unsigned value, as `struct.pack` with `<H`. -/
def u16le (n : Nat) : List Nat := [n % 256, n / 256 % 256]

/-- Little-endian bytes of a 32-bit unsigned value, as `struct.pack` with `<I`. -/
def u32le (n : Nat) : List Nat :=
  [n % 256, n / 256 % 256, n / 65536 % 256, n / 16777216 % 256]

/-- Byte at index `i` of a stream; reads past the end yield 0 (all uses that
matter are guarded by explicit bounds, matching Python's in-bounds reads). -/
def byteAt (data : List Nat) (i : Nat) : Nat := data.getD i 0

/-- Python slice `data[pos:pos+len]`. -/
def byteSlice (data : List Nat) (pos len : Nat) : List Nat := (data.drop pos).take len

/-- Little-endian decode of 2 bytes at `pos`, as `struct.unpack` with `<H`. -/
def u16At (data : List Nat) (pos : Nat) : Nat :=
  byteAt data pos + 256 * byteAt data (pos + 1)

/-- Little-endian decode of 4 bytes at `pos`, as `struct.unpack` with `<I`. -/
def u32At (data : List Nat) (pos : Nat) : Nat :=
  byteAt data pos + 256 * byteAt data (pos + 1) + 65536 * byteAt data (pos + 2) +
    16777216 * byteAt data (pos + 3)

/-- The ASCII bytes of the tag `RIFF`. -/
def riffId : List Nat := [82, 73, 70, 70]

/-- The ASCII bytes of the tag `WAVE`. -/
def waveId : List Nat := [87, 65, 86, 69]

/-- The ASCII bytes of the tag `fmt` followed by a space. -/
def fmtId : List Nat := [102, 109, 116, 32]

/-- The ASCII bytes of the tag `data`. -/
def dataId : List Nat := [100, 97, 116, 97]

/-- Message of the `ValueError` raised when the buffer does not start with `RIFF`. -/
def riffErr : String := "Not a valid WAV file (missing RIFF header)"

/-- Message of the `ValueError` raised when bytes 8-12 are not `WAVE`. -/
def waveErr : String := "Not a valid WAV file (missing WAVE marker)"

/-- Message of the `ValueError` raised when the chunk scan finds no fmt chunk. -/
def noFmtErr : String := "No fmt chunk found in WAV file"

/-- Stands for the `struct.error` Python raises when an unpack slice is short. -/
def structErr : String := "struct.error: unpack requires a buffer of fixed size"

/-- Format descriptor returned by `read_wav_header`. -/
structure FmtInfo where
  format : Nat
  channels : Nat
  sampleRate : Nat
  bitsPerSample : Nat
  chunkSize : Nat
deriving DecidableEq, Repr

/-- Offset advance past a skipped chunk: 8-byte header plus payload, plus one
pad byte when the declared size is odd (`pos += 8 + chunk_size; if chunk_size % 2 == 1: pos += 1`). -/
def chunkStep (csize : Nat) : Nat := 8 + csize + (if csize % 2 = 1 then 1 else 0)

/-- The chunk-scanning loop of `read_wav_header`: starting at `pos`, while
`pos < len(data) - 8`, read a 4-byte id and a 4-byte little-endian size; on
`fmt ` parse the format fields (a short field slice raises `struct.error`),
otherwise skip the chunk.  Falling out of the loop raises the no-fmt error. -/
def findFmt (data : List Nat) (pos : Nat) : Except String FmtInfo :=
  if _h : pos + 8 < data.length then
    if byteSlice data pos 4 = fmtId then
      if pos + 24 ≤ data.length then
        Except.ok
          { format := u16At data (pos + 8)
            channels := u16At data (pos + 10)
            sampleRate := u32At data (pos + 12)
            bitsPerSample := u16At data (pos + 22)
            chunkSize := u32At data (pos + 4) }
      else Except.error structErr
    else findFmt data (pos + chunkStep (u32At data (pos + 4)))
  else Except.error noFmtErr
termination_by data.length - pos
decreasing_by
  simp only [chunkStep]
  split <;> omega

/-- Model of `read_wav_header` in `tools/wav2array.py`: validate the RIFF and
WAVE markers, then scan chunks from offset 12 for the first `fmt ` chunk. -/
def read_wav_header (data : List Nat) : Except String FmtInfo :=
  if byteSlice data 0 4 ≠ riffId then Except.error riffErr
  else if byteSlice data 8 4 ≠ waveId then Except.error waveErr
  else findFmt data 12

/-- Model of `struct.pack` with `<H`: fails outside `[0, 65535]`. -/
def packU16 (n : Nat) : Option (List Nat) :=
  if n < 65536 then some (u16le n) else none

/-- Model of `struct.pack` with `<I`: fails outside `[0, 2^32)`. -/
def packU32 (n : Nat) : Option (List Nat) :=
  if n < 4294967296 then some (u32le n) else none

/-- Model of `struct.pack` with `<h`: fails outside `[-32768, 32767]`, and
otherwise emits the two's-complement little-endian bytes. -/
def packI16 (s : Int) : Option (List Nat) :=
  if -32768 ≤ s ∧ s ≤ 32767 then some (u16le (s % 65536).toNat) else none

/-- Sequential file writing: each entry is one `f.write(struct.pack(...))`.
A failing pack aborts the run; the bytes of the successful writes before it
are already in the file.  Returns the file content and a success flag. -/
def writeSeq : List (Option (List Nat)) → List Nat × Bool
  | [] => ([], true)
  | none :: _ => ([], false)
  | some b :: rest => (b ++ (writeSeq rest).1, (writeSeq rest).2)

/-- Model of `write_wav` in `tools/generate_sounds.py`: the byte content the
call leaves in the file, and whether it ran to completion. -/
def write_wav (samples : List Int) (sample_rate : Nat) : List Nat × Bool :=
  let num_samples := samples.length
  let bits_per_sample := 16
  let num_channels := 1
  let byte_rate := sample_rate * num_channels * bits_per_sample / 8
  let block_align := num_channels * bits_per_sample / 8
  let data_size := num_samples * block_align
  writeSeq
    ([some riffId, packU32 (36 + data_size), some waveId, some fmtId,
      packU32 16, packU16 1, packU16 num_channels, packU32 sample_rate,
      packU32 byte_rate, packU16 block_align, packU16 bits_per_sample,
      some dataId, packU32 data_size] ++ samples.map packI16)

/-- Concatenated `<h` packings of an all-in-range sample list. -/
def bytesOfSamples : List Int → List Nat
  | [] => []
  | s :: rest => u16le ((s % 65536).toNat) ++ bytesOfSamples rest

/-- The 44-byte header `write_wav` emits before the sample data. -/
def wavHeaderBytes (num_samples sample_rate : Nat) : List Nat :=
  riffId ++ u32le (36 + num_samples * 2) ++ waveId ++ fmtId ++ u32le 16 ++
    u16le 1 ++ u16le 1 ++ u32le sample_rate ++ u32le (sample_rate * 2) ++
    u16le 2 ++ u16le 16 ++ dataId ++ u32le (num_samples * 2)

/-- Sample count of the synthesizer: `int(sample_rate * duration_ms / 1000)`,
exact division truncated toward zero, which on naturals is floor division. -/
def num_samples_of (sample_rate duration_ms : Nat) : Nat :=
  sample_rate * duration_ms / 1000

/-- Python's `int(x)` on a real value: truncation toward zero. -/
noncomputable def truncInt (x : ℝ) : ℤ := if 0 ≤ x then ⌊x⌋ else ⌈x⌉

/-- The untruncated sample value `amplitude * math.sin(2 * math.pi * frequency * t)`
at sample index `i`, with `t = i / sample_rate`. -/
noncomputable def toneValue (frequency : ℝ) (sample_rate : Nat) (amplitude : ℝ)
    (i : Nat) : ℝ :=
  amplitude * Real.sin (2 * Real.pi * frequency * ((i : ℝ) / (sample_rate : ℝ)))

/-- Model of `generate_tone` in `tools/generate_sounds.py`: for each index in
`range(num_samples)` emit `int(value * 32767)`. -/
noncomputable def generate_tone (frequency : ℝ) (duration_ms sample_rate : Nat)
    (amplitude : ℝ) : List ℤ :=
  (List.range (num_samples_of sample_rate duration_ms)).map
    (fun i => truncInt (toneValue frequency sample_rate amplitude i * 32767))

/-- Model of `generate_silence`: `[0] * num_samples`. -/
def generate_silence (duration_ms sample_rate : Nat) : List ℤ :=
  List.replicate (num_samples_of sample_rate duration_ms) 0

/-- Uppercase hexadecimal digit character, as produced by Python's `X` format. -/
def hexDigit (n : Nat) : Char :=
  if n < 10 then Char.ofNat (48 + n) else Char.ofNat (55 + n)

/-- Python `f-string` rendering `0x` followed by `b` under format `02X`
(two uppercase hex digits; every file byte is below 256). -/
def byteHex (b : Nat) : String :=
  String.mk ['0', 'x', hexDigit (b / 16), hexDigit (b % 16)]

/-- Python's `+=` accumulation of the emitted rows: plain concatenation. -/
def strJoin : List String → String
  | [] => ""
  | s :: rest => s ++ strJoin rest

/-- One loop iteration of the row emitter: indent, the sixteen-byte slice at
`i` joined with comma-space, a trailing comma unless this row reaches the end
of the data, then a newline. -/
def renderRow (data : List Nat) (i : Nat) : String :=
  "    " ++ String.intercalate (", ") ((byteSlice data i 16).map byteHex) ++
    (if i + 16 < data.length then "," else "") ++ "\n"

/-- The row loop `for i in range(0, len(data), 16)` of `wav_to_c_array`. -/
def byteRows (data : List Nat) : String :=
  strJoin (((List.range ((data.length + 15) / 16)).map (fun k => k * 16)).map
    (renderRow data))

/-- Model of `wav_to_c_array` in `tools/wav2array.py`: parse the header (a
parse failure aborts the encoding), then emit the comment block, the array
declaration, the byte rows, and the size constant. -/
def wav_to_c_array (data : List Nat) (fileName varName : String) :
    Except String String :=
  match read_wav_header data with
  | Except.error e => Except.error e
  | Except.ok info =>
    Except.ok
      ("// " ++ fileName ++ "\n" ++
       "// Format: " ++ Nat.repr info.channels ++ " channel(s), " ++
         Nat.repr info.sampleRate ++ " Hz, " ++
         Nat.repr info.bitsPerSample ++ "-bit\n" ++
       "// Size: " ++ Nat.repr data.length ++ " bytes\n\n" ++
       "const uint8_t PROGMEM " ++ varName ++ "[] = \x7b\n" ++
       byteRows data ++
       "\x7d;\n" ++
       "const uint32_t " ++ varName ++ "_len = sizeof(" ++ varName ++ ");\n")

/-- Rows as the spec describes them: the data cut into successive chunks of
sixteen bytes, the final chunk possibly shorter. -/
def specChunks (data : List Nat) : List (List Nat) :=
  match data with
  | [] => []
  | b :: rest => ((b :: rest).take 16) :: specChunks ((b :: rest).drop 16)
termination_by data.length
decreasing_by simp; omega

/-- Rendering as the spec describes it: each row on its own uniformly indented
line, comma-and-space between the literals of a row, and a trailing comma
after every row except the last one. -/
def specRender : List (List Nat) → String
  | [] => ""
  | [r] => "    " ++ String.intercalate (", ") (r.map byteHex) ++ "\n"
  | r :: r2 :: rest =>
    "    " ++ String.intercalate (", ") (r.map byteHex) ++ ",\n" ++
      specRender (r2 :: rest)


/-- A RIFF chunk as laid out in a byte stream: a 4-byte id, the payload, and
the pad byte that follows an odd-sized payload. -/
structure RChunk where
  cid : List Nat
  body : List Nat
  pad : List Nat

/-- The bytes of one chunk: id, little-endian declared size (the payload
length), payload, pad. -/
def chunkBytes (c : RChunk) : List Nat :=
  c.cid ++ (u32le c.body.length ++ (c.body ++ c.pad))

/-- The bytes of a list of chunks laid out one after the other. -/
def chunksBytes : List RChunk → List Nat
  | [] => []
  | c :: rest => chunkBytes c ++ chunksBytes rest

/-- Well-formedness of skippable chunks: a 4-byte id that is not `fmt `, a
payload whose length fits the 32-bit size field, and a pad byte exactly when
the payload length is odd. -/
def chunksOk (cs : List RChunk) : Prop :=
  ∀ c ∈ cs, c.cid.length = 4 ∧ c.cid ≠ fmtId ∧
    c.body.length < 4294967296 ∧ c.pad.length = c.body.length % 2

/-- Positions the chunk scan visits when started at `start`: the start itself,
and from any visited position with strictly more than 8 bytes remaining whose
chunk id is not `fmt `, the position past that chunk. -/
inductive ScanReach (data : List Nat) (start : Nat) : Nat → Prop
  | refl : ScanReach data start start
  | step {q : Nat} : ScanReach data start q → q + 8 < data.length →
      byteSlice data q 4 ≠ fmtId →
      ScanReach data start (q + chunkStep (u32At data (q + 4)))

/-! ### Byte-level infrastructure lemmas -/

theorem byteAt_append (a b : List Nat) (k : Nat) :
    byteAt (a ++ b) (a.length + k) = byteAt b k := by
  induction a with
  | nil => simp [byteAt]
  | cons x xs ih =>
    simp only [List.cons_append, List.length_cons, Nat.succ_add, byteAt, List.getD] at *
    exact ih

theorem drop_append_len (a b : List Nat) (k : Nat) :
    (a ++ b).drop (a.length + k) = b.drop k := by
  induction a with
  | nil => simp
  | cons x xs ih =>
    simp only [List.cons_append, List.length_cons, Nat.succ_add, List.drop_succ_cons]
    exact ih

theorem byteSlice_append (a b : List Nat) (k m : Nat) :
    byteSlice (a ++ b) (a.length + k) m = byteSlice b k m := by
  simp [byteSlice, drop_append_len]

theorem u16At_append (a b : List Nat) (k : Nat) :
    u16At (a ++ b) (a.length + k) = u16At b k := by
  have h1 : a.length + k + 1 = a.length + (k + 1) := by omega
  simp [u16At, h1, byteAt_append]

theorem u32At_append (a b : List Nat) (k : Nat) :
    u32At (a ++ b) (a.length + k) = u32At b k := by
  have h1 : a.length + k + 1 = a.length + (k + 1) := by omega
  have h2 : a.length + k + 2 = a.length + (k + 2) := by omega
  have h3 : a.length + k + 3 = a.length + (k + 3) := by omega
  simp [u32At, h1, h2, h3, byteAt_append]

theorem u32At_u32le (n : Nat) (b : List Nat) (h : n < 4294967296) :
    u32At (u32le n ++ b) 0 = n := by
  simp [u32At, u32le, byteAt]
  omega

theorem u16At_u16le (n : Nat) (b : List Nat) (h : n < 65536) :
    u16At (u16le n ++ b) 0 = n := by
  simp [u16At, u16le, byteAt]
  omega

theorem byteSlice_head4 (a b : List Nat) (h : a.length = 4) :
    byteSlice (a ++ b) 0 4 = a := by
  simp [byteSlice, List.take_left' h]

theorem byteSlice_append_take (a b : List Nat) (k m : Nat) :
    byteSlice (a ++ b) (a.length + k) m = (b.drop k).take m := by
  simp [byteSlice, drop_append_len]

/-! ### Unfolding lemmas for the chunk scan -/

theorem findFmt_exhaust (data : List Nat) (pos : Nat) (h : ¬ pos + 8 < data.length) :
    findFmt data pos = Except.error noFmtErr := by
  rw [findFmt]
  simp [h]

theorem findFmt_skip (data : List Nat) (pos : Nat) (h : pos + 8 < data.length)
    (hid : byteSlice data pos 4 ≠ fmtId) :
    findFmt data pos = findFmt data (pos + chunkStep (u32At data (pos + 4))) := by
  rw [findFmt]
  simp [h, hid]

theorem findFmt_found (data : List Nat) (pos : Nat) (h : pos + 8 < data.length)
    (hid : byteSlice data pos 4 = fmtId) (hlen : pos + 24 ≤ data.length) :
    findFmt data pos = Except.ok
      { format := u16At data (pos + 8)
        channels := u16At data (pos + 10)
        sampleRate := u32At data (pos + 12)
        bitsPerSample := u16At data (pos + 22)
        chunkSize := u32At data (pos + 4) } := by
  rw [findFmt]
  simp [h, hid, hlen]

theorem findFmt_found_short (data : List Nat) (pos : Nat) (h : pos + 8 < data.length)
    (hid : byteSlice data pos 4 = fmtId) (hlen : ¬ pos + 24 ≤ data.length) :
    findFmt data pos = Except.error structErr := by
  rw [findFmt]
  simp [h, hid, hlen]

theorem read_wav_header_bad_riff (data : List Nat) (h : byteSlice data 0 4 ≠ riffId) :
    read_wav_header data = Except.error riffErr := by
  simp [read_wav_header, h]

theorem read_wav_header_bad_wave (data : List Nat) (h0 : byteSlice data 0 4 = riffId)
    (h : byteSlice data 8 4 ≠ waveId) :
    read_wav_header data = Except.error waveErr := by
  simp [read_wav_header, h0, h]

theorem read_wav_header_scan (data : List Nat) (h0 : byteSlice data 0 4 = riffId)
    (h8 : byteSlice data 8 4 = waveId) :
    read_wav_header data = findFmt data 12 := by
  simp [read_wav_header, h0, h8]

theorem byteSlice_at (a b : List Nat) (p m : Nat) (hp : a.length = p) :
    byteSlice (a ++ b) p m = b.take m := by
  subst hp
  have h := byteSlice_append a b 0 m
  simp only [Nat.add_zero] at h
  rw [h]
  simp [byteSlice]

theorem u16At_at (a b : List Nat) (p : Nat) (hp : a.length = p) :
    u16At (a ++ b) p = u16At b 0 := by
  subst hp
  simpa using u16At_append a b 0

theorem u32At_at (a b : List Nat) (p : Nat) (hp : a.length = p) :
    u32At (a ++ b) p = u32At b 0 := by
  subst hp
  simpa using u32At_append a b 0

/-- Claim C7 counterexample: encoding an input of zero bytes does not
succeed; `wav_to_c_array` parses the WAV header first, and the empty buffer
fails the RIFF check. -/
theorem empty_input_cex :
    wav_to_c_array [] ("empty.wav") ("x") = Except.error riffErr := by
  have h : read_wav_header ([] : List Nat) = Except.error riffErr :=
    read_wav_header_bad_riff _ (by simp [byteSlice, riffId])
  simp [wav_to_c_array, h]

/-- Claim C7 (amended): encoding an input of zero bytes fails with the
invalid-container error, because the header parse precedes byte emission;
the row-rendering stage itself on zero bytes yields an empty array body. -/
theorem empty_input_rejected (fileName varName : String) :
    wav_to_c_array [] fileName varName = Except.error riffErr ∧
      byteRows [] = "" := by
  constructor
  · have h : read_wav_header ([] : List Nat) = Except.error riffErr :=
      read_wav_header_bad_riff _ (by simp [byteSlice, riffId])
    simp [wav_to_c_array, h]
  · simp [byteRows, strJoin]

/-- Claim C4: `read_wav_header` rejects a buffer whose first four bytes are
not `RIFF` or whose bytes 8-12 are not `WAVE` with the invalid-container
errors, and rejects a well-formed RIFF/WAVE buffer holding only a `data`
chunk (declared size equal to its payload, optional pad byte) with the
missing-format-chunk error. -/
theorem header_errors :
    (∀ data : List Nat,
      byteSlice data 0 4 ≠ riffId ∨ byteSlice data 8 4 ≠ waveId →
      read_wav_header data = Except.error riffErr ∨
        read_wav_header data = Except.error waveErr) ∧
    (∀ sz payload pad : List Nat, sz.length = 4 →
      payload.length < 4294967296 → pad.length ≤ 1 →
      read_wav_header
          (riffId ++ sz ++ waveId ++ dataId ++ u32le payload.length ++ payload ++ pad) =
        Except.error noFmtErr) := by
  constructor
  · intro data h
    by_cases h0 : byteSlice data 0 4 = riffId
    · right
      exact read_wav_header_bad_wave data h0 (h.resolve_left (by simp [h0]))
    · left
      exact read_wav_header_bad_riff data h0
  · intro sz payload pad hsz hL hpad
    obtain ⟨data, hdata⟩ :
        ∃ d, d = riffId ++ sz ++ waveId ++ dataId ++ u32le payload.length ++ payload ++ pad :=
      ⟨_, rfl⟩
    rw [← hdata]
    have hlen : data.length = 20 + payload.length + pad.length := by
      simp [hdata, riffId, waveId, dataId, u32le, hsz]
      omega
    have h0 : byteSlice data 0 4 = riffId := by
      rw [hdata, show riffId ++ sz ++ waveId ++ dataId ++ u32le payload.length ++ payload ++ pad =
        riffId ++ (sz ++ (waveId ++ (dataId ++ (u32le payload.length ++ (payload ++ pad))))) from by
          simp [List.append_assoc]]
      exact byteSlice_head4 _ _ (by simp [riffId])
    have h8 : byteSlice data 8 4 = waveId := by
      rw [hdata, show riffId ++ sz ++ waveId ++ dataId ++ u32le payload.length ++ payload ++ pad =
        (riffId ++ sz) ++ (waveId ++ (dataId ++ (u32le payload.length ++ (payload ++ pad)))) from by
          simp [List.append_assoc]]
      rw [byteSlice_at (riffId ++ sz) _ 8 4 (by simp [riffId, hsz])]
      simp [waveId, List.take_append_of_le_length]
    rw [read_wav_header_scan data h0 h8]
    by_cases hrun : 12 + 8 < data.length
    · have h12 : byteSlice data 12 4 = dataId := by
        rw [hdata, show riffId ++ sz ++ waveId ++ dataId ++ u32le payload.length ++ payload ++ pad =
          (riffId ++ sz ++ waveId) ++ (dataId ++ (u32le payload.length ++ (payload ++ pad))) from by
            simp [List.append_assoc]]
        rw [byteSlice_at (riffId ++ sz ++ waveId) _ 12 4 (by simp [riffId, waveId, hsz])]
        simp [dataId, List.take_append_of_le_length]
      have h16 : u32At data 16 = payload.length := by
        rw [hdata, show riffId ++ sz ++ waveId ++ dataId ++ u32le payload.length ++ payload ++ pad =
          (riffId ++ sz ++ waveId ++ dataId) ++ (u32le payload.length ++ (payload ++ pad)) from by
            simp [List.append_assoc]]
        rw [u32At_at (riffId ++ sz ++ waveId ++ dataId) _ 16
          (by simp [riffId, waveId, dataId, hsz])]
        exact u32At_u32le payload.length _ hL
      rw [findFmt_skip data 12 hrun (by simp [h12, dataId, fmtId])]
      apply findFmt_exhaust
      rw [h16, hlen]
      simp only [chunkStep]
      split <;> omega
    · exact findFmt_exhaust data 12 hrun

/-- Claim C4 witness: the empty buffer triggers an invalid-container error,
and a minimal RIFF/WAVE file holding only an empty `data` chunk triggers the
missing-format-chunk error. -/
theorem header_errors_witness :
    (read_wav_header [] = Except.error riffErr ∨
      read_wav_header [] = Except.error waveErr) ∧
    read_wav_header
        (riffId ++ [0, 0, 0, 0] ++ waveId ++ dataId ++ u32le 0 ++ [] ++ []) =
      Except.error noFmtErr := by
  constructor
  · exact header_errors.1 [] (Or.inl (by simp [byteSlice, riffId]))
  · have h := header_errors.2 [0, 0, 0, 0] [] [] (by decide) (by decide) (by decide)
    simpa using h

theorem scanReach_trans {data : List Nat} {a b c : Nat}
    (h1 : ScanReach data a b) (h2 : ScanReach data b c) : ScanReach data a c := by
  induction h2 with
  | refl => exact h1
  | step hq h8 hid ih => exact ScanReach.step ih h8 hid

theorem chunkStep_ge (csize : Nat) : 8 ≤ chunkStep csize := by
  simp only [chunkStep]
  split <;> omega

theorem findFmt_err_mono (data : List Nat) (pos q : Nat)
    (herr : findFmt data pos = Except.error noFmtErr)
    (hq : ScanReach data pos q) : findFmt data q = Except.error noFmtErr := by
  induction hq with
  | refl => exact herr
  | step hq h8 hid ih => rw [← findFmt_skip data _ h8 hid]; exact ih

theorem findFmt_err_not_fmt (data : List Nat) (q : Nat)
    (herr : findFmt data q = Except.error noFmtErr) (h8 : q + 8 < data.length) :
    byteSlice data q 4 ≠ fmtId := by
  intro hid
  by_cases h24 : q + 24 ≤ data.length
  · rw [findFmt_found data q h8 hid h24] at herr
    exact absurd herr (by simp)
  · rw [findFmt_found_short data q h8 hid h24] at herr
    exact absurd (Except.error.inj herr) (by decide)

theorem findFmt_err_exhaust (data : List Nat) (pos : Nat)
    (herr : findFmt data pos = Except.error noFmtErr) :
    ∃ p, ScanReach data pos p ∧ data.length ≤ p + 8 := by
  have H : ∀ n pos, data.length - pos ≤ n →
      findFmt data pos = Except.error noFmtErr →
      ∃ p, ScanReach data pos p ∧ data.length ≤ p + 8 := by
    intro n
    induction n with
    | zero =>
      intro pos hle _
      exact ⟨pos, ScanReach.refl, by omega⟩
    | succ n ih =>
      intro pos hle he
      by_cases h8 : pos + 8 < data.length
      · have hid := findFmt_err_not_fmt data pos he h8
        have hnext : findFmt data (pos + chunkStep (u32At data (pos + 4))) =
            Except.error noFmtErr := by
          rw [← findFmt_skip data pos h8 hid]; exact he
        have hc := chunkStep_ge (u32At data (pos + 4))
        obtain ⟨p, hr, hp⟩ := ih _ (by omega) hnext
        exact ⟨p, scanReach_trans (ScanReach.step ScanReach.refl h8 hid) hr, hp⟩
      · exact ⟨pos, ScanReach.refl, by omega⟩
  exact H (data.length - pos) pos le_rfl herr

/-- Claim C5 (amended): during the chunk scan a 4-byte id and size are read at
every step at which strictly more than 8 bytes remain from the current offset;
the missing-format-chunk error is raised only once the scan reaches a position
with at most 8 bytes remaining, no visited position with more than 8 bytes
remaining having carried a `fmt ` id. -/
theorem scan_exhaustion (data : List Nat)
    (h : read_wav_header data = Except.error noFmtErr) :
    ∃ p, ScanReach data 12 p ∧ data.length ≤ p + 8 ∧
      ∀ q, ScanReach data 12 q → q + 8 < data.length →
        byteSlice data q 4 ≠ fmtId := by
  have hscan : findFmt data 12 = Except.error noFmtErr := by
    by_cases h0 : byteSlice data 0 4 = riffId
    · by_cases h8 : byteSlice data 8 4 = waveId
      · rw [read_wav_header_scan data h0 h8] at h; exact h
      · rw [read_wav_header_bad_wave data h0 h8] at h
        exact absurd (Except.error.inj h) (by decide)
    · rw [read_wav_header_bad_riff data h0] at h
      exact absurd (Except.error.inj h) (by decide)
  obtain ⟨p, hr, hp⟩ := findFmt_err_exhaust data 12 hscan
  refine ⟨p, hr, hp, ?_⟩
  intro q hq h8
  exact findFmt_err_not_fmt data q (findFmt_err_mono data 12 q hscan hq) h8

/-- Claim C5 counterexample: a 20-byte buffer whose bytes 12-20 are a readable
`fmt ` chunk header.  Exactly 8 bytes remain at the scan start, offset 12, and
the scan cannot advance (advancing requires strictly more than 8 remaining
bytes), yet it raises the missing-format-chunk error: the error is not
restricted to positions with fewer than 8 bytes remaining, and the chunk
header sitting there with exactly 8 bytes remaining is never read. -/
theorem scan_boundary_cex :
    read_wav_header (riffId ++ u32le 12 ++ waveId ++ fmtId ++ u32le 0) =
      Except.error noFmtErr ∧
    byteSlice (riffId ++ u32le 12 ++ waveId ++ fmtId ++ u32le 0) 12 4 = fmtId ∧
    (riffId ++ u32le 12 ++ waveId ++ fmtId ++ u32le 0).length = 12 + 8 := by
  refine ⟨?_, by decide, by decide⟩
  rw [read_wav_header_scan _ (by decide) (by decide)]
  exact findFmt_exhaust _ 12 (by decide)

/-- Claim C5 witness: the amended exhaustion theorem applies to the minimal
12-byte RIFF/WAVE buffer with no chunks at all. -/
theorem scan_exhaustion_witness :
    ∃ p, ScanReach (riffId ++ u32le 0 ++ waveId) 12 p ∧
      (riffId ++ u32le 0 ++ waveId).length ≤ p + 8 ∧
      ∀ q, ScanReach (riffId ++ u32le 0 ++ waveId) 12 q →
        q + 8 < (riffId ++ u32le 0 ++ waveId).length →
        byteSlice (riffId ++ u32le 0 ++ waveId) q 4 ≠ fmtId :=
  scan_exhaustion _ (by
    rw [read_wav_header_scan _ (by decide) (by decide)]
    exact findFmt_exhaust _ 12 (by decide))

theorem byteAt_append_lt (a b : List Nat) (k : Nat) (h : k < a.length) :
    byteAt (a ++ b) k = byteAt a k := by
  simp [byteAt, List.getD, List.getElem?_append_left h]

theorem u16At_append_lt (a b : List Nat) (k : Nat) (h : k + 2 ≤ a.length) :
    u16At (a ++ b) k = u16At a k := by
  simp [u16At, byteAt_append_lt _ _ _ (by omega : k < a.length),
    byteAt_append_lt _ _ _ (by omega : k + 1 < a.length)]

theorem u32At_append_lt (a b : List Nat) (k : Nat) (h : k + 4 ≤ a.length) :
    u32At (a ++ b) k = u32At a k := by
  simp [u32At, byteAt_append_lt _ _ _ (by omega : k < a.length),
    byteAt_append_lt _ _ _ (by omega : k + 1 < a.length),
    byteAt_append_lt _ _ _ (by omega : k + 2 < a.length),
    byteAt_append_lt _ _ _ (by omega : k + 3 < a.length)]

theorem findFmt_found_at (pre body rest : List Nat) (hb : 16 ≤ body.length)
    (hb2 : body.length < 4294967296) :
    findFmt (pre ++ (fmtId ++ (u32le body.length ++ (body ++ rest)))) pre.length =
      Except.ok
        { format := u16At body 0
          channels := u16At body 2
          sampleRate := u32At body 4
          bitsPerSample := u16At body 14
          chunkSize := body.length } := by
  obtain ⟨data, hdata⟩ :
      ∃ d, d = pre ++ (fmtId ++ (u32le body.length ++ (body ++ rest))) := ⟨_, rfl⟩
  rw [← hdata]
  have hlen : data.length = pre.length + 8 + body.length + rest.length := by
    simp [hdata, fmtId, u32le]
    omega
  have h8 : pre.length + 8 < data.length := by omega
  have h24 : pre.length + 24 ≤ data.length := by omega
  have hid : byteSlice data pre.length 4 = fmtId := by
    rw [hdata, byteSlice_at pre _ pre.length 4 rfl]
    simp [fmtId]
  rw [findFmt_found data pre.length h8 hid h24]
  have hgrp8 : data = (pre ++ fmtId ++ u32le body.length) ++ (body ++ rest) := by
    simp [hdata, List.append_assoc]
  have hgrp4 : data = (pre ++ fmtId) ++ (u32le body.length ++ (body ++ rest)) := by
    simp [hdata, List.append_assoc]
  have hl8 : (pre ++ fmtId ++ u32le body.length).length = pre.length + 8 := by
    simp [fmtId, u32le]
  have hcsize : u32At data (pre.length + 4) = body.length := by
    rw [hgrp4, u32At_at (pre ++ fmtId) _ (pre.length + 4) (by simp [fmtId])]
    exact u32At_u32le _ _ hb2
  have hf : u16At data (pre.length + 8) = u16At body 0 := by
    rw [hgrp8, u16At_at _ _ _ hl8, u16At_append_lt body rest 0 (by omega)]
  have hc : u16At data (pre.length + 10) = u16At body 2 := by
    rw [hgrp8, show pre.length + 10 = (pre ++ fmtId ++ u32le body.length).length + 2 from by
      rw [hl8]]
    rw [u16At_append, u16At_append_lt body rest 2 (by omega)]
  have hr : u32At data (pre.length + 12) = u32At body 4 := by
    rw [hgrp8, show pre.length + 12 = (pre ++ fmtId ++ u32le body.length).length + 4 from by
      rw [hl8]]
    rw [u32At_append, u32At_append_lt body rest 4 (by omega)]
  have hbits : u16At data (pre.length + 22) = u16At body 14 := by
    rw [hgrp8, show pre.length + 22 = (pre ++ fmtId ++ u32le body.length).length + 14 from by
      rw [hl8]]
    rw [u16At_append, u16At_append_lt body rest 14 (by omega)]
  rw [hcsize, hf, hc, hr, hbits]

theorem findFmt_skip_chunk (pre : List Nat) (c : RChunk) (suf : List Nat)
    (hcid : c.cid.length = 4) (hne : c.cid ≠ fmtId)
    (hcb : c.body.length < 4294967296) (hcp : c.pad.length = c.body.length % 2)
    (hsuf : suf ≠ []) :
    findFmt (pre ++ (chunkBytes c ++ suf)) pre.length =
      findFmt (pre ++ (chunkBytes c ++ suf)) (pre ++ chunkBytes c).length := by
  obtain ⟨data, hdata⟩ : ∃ d, d = pre ++ (chunkBytes c ++ suf) := ⟨_, rfl⟩
  rw [← hdata]
  have hsl : 1 ≤ suf.length := by
    cases suf with
    | nil => exact absurd rfl hsuf
    | cons x xs => simp
  have hlen : data.length =
      pre.length + 8 + c.body.length + c.pad.length + suf.length := by
    simp [hdata, chunkBytes, u32le, hcid]
    omega
  have h8 : pre.length + 8 < data.length := by omega
  have hid : byteSlice data pre.length 4 = c.cid := by
    rw [hdata, byteSlice_at pre _ pre.length 4 rfl,
      show chunkBytes c ++ suf =
        c.cid ++ (u32le c.body.length ++ ((c.body ++ c.pad) ++ suf)) from by
          simp [chunkBytes, List.append_assoc]]
    exact List.take_left' hcid
  have hcsize : u32At data (pre.length + 4) = c.body.length := by
    rw [hdata, show pre ++ (chunkBytes c ++ suf) =
      (pre ++ c.cid) ++ (u32le c.body.length ++ ((c.body ++ c.pad) ++ suf)) from by
        simp [chunkBytes, List.append_assoc]]
    rw [u32At_at (pre ++ c.cid) _ (pre.length + 4) (by simp [hcid])]
    exact u32At_u32le _ _ hcb
  rw [findFmt_skip data pre.length h8 (by rw [hid]; exact hne), hcsize]
  have hpos : pre.length + chunkStep c.body.length = (pre ++ chunkBytes c).length := by
    simp only [chunkStep, List.length_append, chunkBytes, u32le, List.length_cons,
      List.length_nil, hcid]
    split <;> omega
  rw [hpos]

theorem findFmt_chunks (cs : List RChunk) :
    ∀ pre body rest : List Nat, chunksOk cs → 16 ≤ body.length →
    body.length < 4294967296 →
    findFmt (pre ++ (chunksBytes cs ++ (fmtId ++ (u32le body.length ++ (body ++ rest)))))
        pre.length =
      Except.ok
        { format := u16At body 0
          channels := u16At body 2
          sampleRate := u32At body 4
          bitsPerSample := u16At body 14
          chunkSize := body.length } := by
  induction cs with
  | nil =>
    intro pre body rest _ hb hb2
    have h : chunksBytes [] ++ (fmtId ++ (u32le body.length ++ (body ++ rest))) =
        fmtId ++ (u32le body.length ++ (body ++ rest)) := by
      simp [chunksBytes]
    rw [h]
    exact findFmt_found_at pre body rest hb hb2
  | cons c cs ih =>
    intro pre body rest hok hb hb2
    have hc := hok c (by simp)
    have hok' : chunksOk cs := fun d hd => hok d (by simp [hd])
    have hgrp : pre ++ (chunksBytes (c :: cs) ++ (fmtId ++ (u32le body.length ++ (body ++ rest)))) =
        pre ++ (chunkBytes c ++ (chunksBytes cs ++ (fmtId ++ (u32le body.length ++ (body ++ rest))))) := by
      simp [chunksBytes, List.append_assoc]
    rw [hgrp]
    have hsuf : chunksBytes cs ++ (fmtId ++ (u32le body.length ++ (body ++ rest))) ≠ [] := by
      intro hnil
      have hni := congrArg List.length hnil
      simp only [List.length_append, List.length_nil, fmtId, List.length_cons] at hni
      omega
    rw [findFmt_skip_chunk pre c _ hc.1 hc.2.1 hc.2.2.1 hc.2.2.2 hsuf]
    have hgrp2 : pre ++ (chunkBytes c ++ (chunksBytes cs ++ (fmtId ++ (u32le body.length ++ (body ++ rest))))) =
        (pre ++ chunkBytes c) ++ (chunksBytes cs ++ (fmtId ++ (u32le body.length ++ (body ++ rest)))) := by
      simp [List.append_assoc]
    rw [hgrp2]
    exact ih (pre ++ chunkBytes c) body rest hok' hb hb2

/-- Claim C6: on a buffer with a valid RIFF/WAVE prefix, laid out as any
sequence of well-formed non-`fmt ` chunks followed by a `fmt ` chunk (16 or
more payload bytes) and arbitrary further bytes, `read_wav_header` starts at
offset 12, skips each non-`fmt ` chunk by `8 + chunk_size` plus a pad byte
for odd sizes, and returns the fields of the first `fmt ` chunk: audio
format at chunk offset +8, channel count at +10, sample rate at +12, bits
per sample at +22, together with the declared chunk size, regardless of what
follows the chunk. -/
theorem first_fmt_chunk_parsed (sz : List Nat) (cs : List RChunk)
    (body rest : List Nat) (hsz : sz.length = 4) (hok : chunksOk cs)
    (hb : 16 ≤ body.length) (hb2 : body.length < 4294967296) :
    read_wav_header
        (riffId ++ sz ++ waveId ++ chunksBytes cs ++ fmtId ++
          u32le body.length ++ body ++ rest) =
      Except.ok
        { format := u16At body 0
          channels := u16At body 2
          sampleRate := u32At body 4
          bitsPerSample := u16At body 14
          chunkSize := body.length } := by
  obtain ⟨data, hdata⟩ :
      ∃ d, d = riffId ++ sz ++ waveId ++ chunksBytes cs ++ fmtId ++
        u32le body.length ++ body ++ rest := ⟨_, rfl⟩
  rw [← hdata]
  have h0 : byteSlice data 0 4 = riffId := by
    rw [hdata, show riffId ++ sz ++ waveId ++ chunksBytes cs ++ fmtId ++
        u32le body.length ++ body ++ rest =
      riffId ++ (sz ++ (waveId ++ (chunksBytes cs ++ (fmtId ++
        (u32le body.length ++ (body ++ rest)))))) from by simp [List.append_assoc]]
    exact byteSlice_head4 _ _ (by simp [riffId])
  have h8 : byteSlice data 8 4 = waveId := by
    rw [hdata, show riffId ++ sz ++ waveId ++ chunksBytes cs ++ fmtId ++
        u32le body.length ++ body ++ rest =
      (riffId ++ sz) ++ (waveId ++ (chunksBytes cs ++ (fmtId ++
        (u32le body.length ++ (body ++ rest))))) from by simp [List.append_assoc]]
    rw [byteSlice_at (riffId ++ sz) _ 8 4 (by simp [riffId, hsz])]
    exact List.take_left' (by simp [waveId])
  rw [read_wav_header_scan data h0 h8]
  rw [hdata, show riffId ++ sz ++ waveId ++ chunksBytes cs ++ fmtId ++
      u32le body.length ++ body ++ rest =
    (riffId ++ sz ++ waveId) ++ (chunksBytes cs ++ (fmtId ++
      (u32le body.length ++ (body ++ rest)))) from by simp [List.append_assoc]]
  rw [show (12 : Nat) = (riffId ++ sz ++ waveId).length from by
    simp [riffId, waveId, hsz]]
  exact findFmt_chunks cs (riffId ++ sz ++ waveId) body rest hok hb hb2

/-- Claim C6 witness: a concrete file with one skipped odd-sized `LIST`
chunk before a `fmt ` chunk declaring 7, 2 channels, 44100 Hz, 24 bits,
followed by trailing bytes. -/
theorem first_fmt_chunk_parsed_witness :
    read_wav_header
        (riffId ++ [1, 0, 0, 0] ++ waveId ++
          chunksBytes [⟨[76, 73, 83, 84], [1, 2, 3], [0]⟩] ++ fmtId ++
          u32le ([7, 0, 2, 0, 68, 172, 0, 0, 9, 9, 9, 9, 9, 9, 24, 0] : List Nat).length ++
          [7, 0, 2, 0, 68, 172, 0, 0, 9, 9, 9, 9, 9, 9, 24, 0] ++ [5, 5]) =
      Except.ok
        { format := u16At [7, 0, 2, 0, 68, 172, 0, 0, 9, 9, 9, 9, 9, 9, 24, 0] 0
          channels := u16At [7, 0, 2, 0, 68, 172, 0, 0, 9, 9, 9, 9, 9, 9, 24, 0] 2
          sampleRate := u32At [7, 0, 2, 0, 68, 172, 0, 0, 9, 9, 9, 9, 9, 9, 24, 0] 4
          bitsPerSample := u16At [7, 0, 2, 0, 68, 172, 0, 0, 9, 9, 9, 9, 9, 9, 24, 0] 14
          chunkSize := ([7, 0, 2, 0, 68, 172, 0, 0, 9, 9, 9, 9, 9, 9, 24, 0] : List Nat).length } :=
  first_fmt_chunk_parsed [1, 0, 0, 0] [⟨[76, 73, 83, 84], [1, 2, 3], [0]⟩]
    [7, 0, 2, 0, 68, 172, 0, 0, 9, 9, 9, 9, 9, 9, 24, 0] [5, 5]
    (by decide)
    (by intro c hc; simp at hc; subst hc; refine ⟨by decide, by decide, by decide, by decide⟩)
    (by decide) (by decide)

theorem packU32_eq (n : Nat) (h : n < 4294967296) : packU32 n = some (u32le n) := by
  simp [packU32, h]

theorem packU16_eq (n : Nat) (h : n < 65536) : packU16 n = some (u16le n) := by
  simp [packU16, h]

theorem packI16_eq (s : Int) (h1 : -32768 ≤ s) (h2 : s ≤ 32767) :
    packI16 s = some (u16le ((s % 65536).toNat)) := by
  simp [packI16, h1, h2]

theorem packI16_bad (s : Int) (h : s < -32768 ∨ 32767 < s) : packI16 s = none := by
  rcases h with h | h <;> simp [packI16] <;> omega

theorem writeSeq_cons_some (b : List Nat) (rest : List (Option (List Nat))) :
    writeSeq (some b :: rest) = (b ++ (writeSeq rest).1, (writeSeq rest).2) := rfl

theorem writeSeq_samples_ok (samples : List Int)
    (hs : ∀ s ∈ samples, -32768 ≤ s ∧ s ≤ 32767) :
    writeSeq (samples.map packI16) = (bytesOfSamples samples, true) := by
  induction samples with
  | nil => rfl
  | cons s rest ih =>
    have h := hs s (by simp)
    rw [List.map_cons, packI16_eq s h.1 h.2, writeSeq_cons_some,
      ih (fun x hx => hs x (by simp [hx]))]
    simp [bytesOfSamples]

theorem writeSeq_samples_bad (pre : List Int) (bad : Int) (rest : List Int)
    (hpre : ∀ s ∈ pre, -32768 ≤ s ∧ s ≤ 32767)
    (hbad : bad < -32768 ∨ 32767 < bad) :
    writeSeq ((pre ++ bad :: rest).map packI16) = (bytesOfSamples pre, false) := by
  induction pre with
  | nil =>
    rw [List.nil_append, List.map_cons, packI16_bad bad hbad]
    rfl
  | cons s ss ih =>
    have h := hpre s (by simp)
    rw [List.cons_append, List.map_cons, packI16_eq s h.1 h.2, writeSeq_cons_some,
      ih (fun x hx => hpre x (by simp [hx]))]
    simp [bytesOfSamples]

theorem write_wav_split (samples : List Int) (R : Nat)
    (hN : 36 + 2 * samples.length < 4294967296) (hR : 2 * R < 4294967296) :
    write_wav samples R =
      (wavHeaderBytes samples.length R ++ (writeSeq (samples.map packI16)).1,
        (writeSeq (samples.map packI16)).2) := by
  have e2 : samples.length * (1 * 16 / 8) = samples.length * 2 := by norm_num
  have e3 : R * 1 * 16 / 8 = R * 2 := by omega
  rw [write_wav]
  simp only [e2, e3]
  rw [packU32_eq (36 + samples.length * 2) (by omega),
    packU32_eq 16 (by norm_num), packU16_eq 1 (by norm_num),
    packU32_eq R (by omega), packU32_eq (R * 2) (by omega),
    packU16_eq (1 * 16 / 8) (by norm_num), packU16_eq 16 (by norm_num),
    packU32_eq (samples.length * 2) (by omega)]
  simp only [List.cons_append, List.nil_append, writeSeq_cons_some]
  simp [wavHeaderBytes, List.append_assoc]

theorem bytesOfSamples_length (samples : List Int) :
    (bytesOfSamples samples).length = 2 * samples.length := by
  induction samples with
  | nil => rfl
  | cons s rest ih =>
    simp [bytesOfSamples, u16le, ih]
    omega

theorem wavHeaderBytes_length (N R : Nat) : (wavHeaderBytes N R).length = 44 := by
  simp [wavHeaderBytes, riffId, waveId, fmtId, dataId, u16le, u32le]

theorem wav_header_parse (N R : Nat) (tail : List Nat) (hR32 : R < 4294967296) :
    read_wav_header (wavHeaderBytes N R ++ tail) =
      Except.ok
        { format := 1, channels := 1, sampleRate := R,
          bitsPerSample := 16, chunkSize := 16 } := by
  obtain ⟨fmtBody, hfb⟩ : ∃ b, b =
      u16le 1 ++ (u16le 1 ++ (u32le R ++ (u32le (R * 2) ++ (u16le 2 ++ u16le 16)))) :=
    ⟨_, rfl⟩
  have hbl : fmtBody.length = 16 := by simp [hfb, u16le, u32le]
  have hshape : wavHeaderBytes N R ++ tail =
      (riffId ++ u32le (36 + N * 2) ++ waveId) ++ (fmtId ++ (u32le fmtBody.length ++
        (fmtBody ++ (dataId ++ (u32le (N * 2) ++ tail))))) := by
    rw [hbl, hfb]
    simp [wavHeaderBytes, List.append_assoc]
  rw [hshape]
  obtain ⟨data, hdata⟩ : ∃ d, d =
      (riffId ++ u32le (36 + N * 2) ++ waveId) ++ (fmtId ++ (u32le fmtBody.length ++
        (fmtBody ++ (dataId ++ (u32le (N * 2) ++ tail))))) := ⟨_, rfl⟩
  rw [← hdata]
  have h0 : byteSlice data 0 4 = riffId := by
    rw [hdata]
    simp only [List.append_assoc]
    exact byteSlice_head4 _ _ (by simp [riffId])
  have h8 : byteSlice data 8 4 = waveId := by
    rw [hdata, List.append_assoc (riffId ++ u32le (36 + N * 2)) waveId]
    rw [byteSlice_at (riffId ++ u32le (36 + N * 2)) _ 8 4 (by simp [riffId, u32le])]
    exact List.take_left' (by simp [waveId])
  rw [read_wav_header_scan data h0 h8, hdata]
  rw [show (12 : Nat) = (riffId ++ u32le (36 + N * 2) ++ waveId).length from by
    simp [riffId, waveId, u32le]]
  rw [findFmt_found_at _ fmtBody _ (by rw [hbl]) (by rw [hbl]; norm_num)]
  have f0 : u16At fmtBody 0 = 1 := by
    rw [hfb]
    exact u16At_u16le 1 _ (by norm_num)
  have f2 : u16At fmtBody 2 = 1 := by
    rw [hfb, u16At_at (u16le 1) _ 2 (by simp [u16le])]
    exact u16At_u16le 1 _ (by norm_num)
  have f4 : u32At fmtBody 4 = R := by
    rw [hfb, show u16le 1 ++ (u16le 1 ++ (u32le R ++ (u32le (R * 2) ++ (u16le 2 ++ u16le 16)))) =
      (u16le 1 ++ u16le 1) ++ (u32le R ++ (u32le (R * 2) ++ (u16le 2 ++ u16le 16))) from by
        simp [List.append_assoc]]
    rw [u32At_at (u16le 1 ++ u16le 1) _ 4 (by simp [u16le])]
    exact u32At_u32le R _ hR32
  have f14 : u16At fmtBody 14 = 16 := by
    rw [hfb, show u16le 1 ++ (u16le 1 ++ (u32le R ++ (u32le (R * 2) ++ (u16le 2 ++ u16le 16)))) =
      (u16le 1 ++ (u16le 1 ++ (u32le R ++ (u32le (R * 2) ++ u16le 2)))) ++ u16le 16 from by
        simp [List.append_assoc]]
    rw [u16At_at _ _ 14 (by simp [u16le, u32le])]
    simp [u16At, u16le, byteAt]
  rw [f0, f2, f4, f14, hbl]

/-- Claim C1 (amended): for samples within the 16-bit range, with the data
size field fitting 32 bits and a sample rate below 2^31 (so that the byte
rate field also fits its 32-bit pack), writing with `write_wav` completes and
parsing the produced bytes yields audio format 1, one channel, 16 bits per
sample, and the sample rate passed to the writer. -/
theorem wav_round_trip (samples : List Int) (R : Nat)
    (hs : ∀ s ∈ samples, -32768 ≤ s ∧ s ≤ 32767)
    (hN : 36 + 2 * samples.length < 4294967296)
    (hR : 2 * R < 4294967296) :
    (write_wav samples R).2 = true ∧
    read_wav_header (write_wav samples R).1 =
      Except.ok
        { format := 1, channels := 1, sampleRate := R,
          bitsPerSample := 16, chunkSize := 16 } := by
  rw [write_wav_split samples R hN hR, writeSeq_samples_ok samples hs]
  exact ⟨rfl, wav_header_parse samples.length R _ (by omega)⟩

/-- Claim C1 witness: a four-sample file at 16 kHz round-trips. -/
theorem wav_round_trip_witness :
    (write_wav [1, -1, 32767, -32768] 16000).2 = true ∧
    read_wav_header (write_wav [1, -1, 32767, -32768] 16000).1 =
      Except.ok
        { format := 1, channels := 1, sampleRate := 16000,
          bitsPerSample := 16, chunkSize := 16 } :=
  wav_round_trip [1, -1, 32767, -32768] 16000 (by decide) (by decide) (by decide)

/-- Claim C1 counterexample: at sample rate 2^31 the 32-bit pack of the byte
rate field fails, `write_wav` aborts with a 28-byte truncated file, and
parsing that file fails with a short fmt-field read instead of succeeding. -/
theorem wav_round_trip_cex :
    (write_wav [] 2147483648).2 = false ∧
    read_wav_header (write_wav [] 2147483648).1 = Except.error structErr := by
  constructor
  · rfl
  · have hbytes : (write_wav [] 2147483648).1 =
        [82, 73, 70, 70, 36, 0, 0, 0, 87, 65, 86, 69, 102, 109, 116, 32,
         16, 0, 0, 0, 1, 0, 1, 0, 0, 0, 0, 128] := by decide
    rw [hbytes, read_wav_header_scan _ (by decide) (by decide)]
    exact findFmt_found_short _ 12 (by decide) (by decide) (by decide)

/-- Claim C2 (amended): for in-range samples, with the data size field and
the byte rate field fitting their 32-bit packs, the byte stream produced by
`write_wav` has total length `44 + 2N`, its little-endian RIFF size field at
bytes 4-8 equals `36 + 2N`, and its declared data chunk size at bytes 40-44
equals `2N`. -/
theorem wav_sizes (samples : List Int) (R : Nat)
    (hs : ∀ s ∈ samples, -32768 ≤ s ∧ s ≤ 32767)
    (hN : 36 + 2 * samples.length < 4294967296)
    (hR : 2 * R < 4294967296) :
    (write_wav samples R).1.length = 44 + 2 * samples.length ∧
    u32At (write_wav samples R).1 4 = 36 + 2 * samples.length ∧
    u32At (write_wav samples R).1 40 = 2 * samples.length := by
  rw [write_wav_split samples R hN hR, writeSeq_samples_ok samples hs]
  refine ⟨?_, ?_, ?_⟩
  · simp [List.length_append, wavHeaderBytes_length, bytesOfSamples_length]
  · have hshape : wavHeaderBytes samples.length R ++ bytesOfSamples samples =
        riffId ++ (u32le (36 + samples.length * 2) ++ (waveId ++ (fmtId ++ (u32le 16 ++
          (u16le 1 ++ (u16le 1 ++ (u32le R ++ (u32le (R * 2) ++ (u16le 2 ++ (u16le 16 ++
            (dataId ++ (u32le (samples.length * 2) ++ bytesOfSamples samples)))))))))))) := by
      simp [wavHeaderBytes, List.append_assoc]
    rw [hshape, u32At_at riffId _ 4 (by simp [riffId]),
      u32At_u32le _ _ (by omega)]
    omega
  · have hshape : wavHeaderBytes samples.length R ++ bytesOfSamples samples =
        (riffId ++ (u32le (36 + samples.length * 2) ++ (waveId ++ (fmtId ++ (u32le 16 ++
          (u16le 1 ++ (u16le 1 ++ (u32le R ++ (u32le (R * 2) ++ (u16le 2 ++ (u16le 16 ++
            dataId))))))))))) ++ (u32le (samples.length * 2) ++ bytesOfSamples samples) := by
      simp [wavHeaderBytes, List.append_assoc]
    rw [hshape, u32At_at _ _ 40
      (by simp [riffId, waveId, fmtId, dataId, u16le, u32le]),
      u32At_u32le _ _ (by omega)]
    omega

/-- Claim C2 witness: a two-sample file at 22050 Hz has the declared sizes. -/
theorem wav_sizes_witness :
    (write_wav [100, -100] 22050).1.length = 44 + 2 * ([100, -100] : List Int).length ∧
    u32At (write_wav [100, -100] 22050).1 4 = 36 + 2 * ([100, -100] : List Int).length ∧
    u32At (write_wav [100, -100] 22050).1 40 = 2 * ([100, -100] : List Int).length :=
  wav_sizes [100, -100] 22050 (by decide) (by decide) (by decide)

/-- Claim C2 counterexample: at sample rate 2^31 the byte rate field
overflows its 32-bit pack, `write_wav` stops after 28 bytes, and the
produced stream does not have length `44 + 2N`. -/
theorem wav_sizes_cex :
    (write_wav [] 2147483648).1.length ≠ 44 + 2 * ([] : List Int).length := by
  decide

/-- Claim C10: a sample list with an out-of-range element makes `write_wav`
fail at that element's 16-bit pack, neither clamping nor wrapping it; the
write is not atomic: when the error is raised the file already holds the
44-byte header and the packed bytes of every sample preceding the first
offending one, and nothing else. -/
theorem write_error_partial (pre : List Int) (bad : Int) (rest : List Int) (R : Nat)
    (hpre : ∀ s ∈ pre, -32768 ≤ s ∧ s ≤ 32767)
    (hbad : bad < -32768 ∨ 32767 < bad)
    (hN : 36 + 2 * (pre ++ bad :: rest).length < 4294967296)
    (hR : 2 * R < 4294967296) :
    write_wav (pre ++ bad :: rest) R =
      (wavHeaderBytes (pre ++ bad :: rest).length R ++ bytesOfSamples pre, false) ∧
    (wavHeaderBytes (pre ++ bad :: rest).length R).length = 44 := by
  rw [write_wav_split _ _ hN hR, writeSeq_samples_bad pre bad rest hpre hbad]
  exact ⟨rfl, wavHeaderBytes_length _ _⟩

/-- Claim C10 witness: sample 40000 exceeds the 16-bit range; the file ends
after the header and the one preceding sample. -/
theorem write_error_partial_witness :
    write_wav ([5] ++ 40000 :: [7]) 16000 =
      (wavHeaderBytes ([5] ++ 40000 :: [7] : List Int).length 16000 ++
        bytesOfSamples [5], false) ∧
    (wavHeaderBytes ([5] ++ 40000 :: [7] : List Int).length 16000).length = 44 :=
  write_error_partial [5] 40000 [7] 16000 (by decide) (by decide) (by decide) (by decide)

theorem truncInt_bounds (x : ℝ) (B : ℤ) (hB : 0 ≤ B) (h : |x| < (B : ℝ) + 1) :
    -B ≤ truncInt x ∧ truncInt x ≤ B := by
  rw [truncInt]
  rcases abs_lt.mp h with ⟨hlo, hhi⟩
  split_ifs with h0
  · constructor
    · have hf : (0 : ℤ) ≤ ⌊x⌋ := Int.floor_nonneg.mpr h0
      omega
    · have hf : ⌊x⌋ < B + 1 := by
        apply Int.floor_lt.mpr
        push_cast
        linarith
      omega
  · push_neg at h0
    constructor
    · have hc : -B - 1 < ⌈x⌉ := by
        apply Int.lt_ceil.mpr
        push_cast
        linarith
      omega
    · have hc : ⌈x⌉ ≤ 0 := Int.ceil_le.mpr (by exact_mod_cast le_of_lt h0)
      omega

theorem toneValue_abs (frequency : ℝ) (sample_rate i : Nat) :
    |toneValue frequency sample_rate (0.3) i * 32767| ≤ 9830.1 := by
  rw [toneValue]
  have hs : |Real.sin (2 * Real.pi * frequency * ((i : ℝ) / (sample_rate : ℝ)))| ≤ 1 :=
    abs_le.mpr ⟨Real.neg_one_le_sin _, Real.sin_le_one _⟩
  rw [abs_mul, abs_mul]
  have h1 : |(0.3 : ℝ)| = 0.3 := by norm_num
  have h2 : |(32767 : ℝ)| = 32767 := by norm_num
  rw [h1, h2]
  nlinarith [hs, abs_nonneg (Real.sin (2 * Real.pi * frequency * ((i : ℝ) / (sample_rate : ℝ))))]

/-- Claim C3: with the default amplitude 0.3, `generate_tone` returns exactly
`floor(sample_rate * duration_ms / 1000)` samples, each within the signed
16-bit range, and `generate_silence` returns exactly that many zeros. -/
theorem tone_silence_spec (frequency : ℝ) (duration_ms sample_rate : Nat) :
    (generate_tone frequency duration_ms sample_rate (0.3)).length =
      sample_rate * duration_ms / 1000 ∧
    (∀ s ∈ generate_tone frequency duration_ms sample_rate (0.3),
      -32768 ≤ s ∧ s ≤ 32767) ∧
    generate_silence duration_ms sample_rate =
      List.replicate (sample_rate * duration_ms / 1000) 0 := by
  refine ⟨by simp [generate_tone, num_samples_of], ?_, rfl⟩
  intro s hs
  simp only [generate_tone, List.mem_map, List.mem_range] at hs
  obtain ⟨i, _, hi⟩ := hs
  have hb := truncInt_bounds (toneValue frequency sample_rate (0.3) i * 32767) 32767
    (by norm_num)
    (by
      have := toneValue_abs frequency sample_rate i
      push_cast
      linarith)
  rw [← hi]
  omega

/-- Claim C3 witness: at 1000 Hz sample rate for 1 ms the tone has one
sample, that sample is in range, and the silence is one zero. -/
theorem tone_silence_spec_witness :
    (generate_tone 440 1 1000 (0.3)).length = 1000 * 1 / 1000 ∧
    (-32768 ≤ (0 : ℤ) ∧ (0 : ℤ) ≤ 32767) ∧
    generate_silence 1 1000 = List.replicate (1000 * 1 / 1000) 0 := by
  obtain ⟨h1, h2, h3⟩ := tone_silence_spec 440 1 1000
  refine ⟨h1, h2 0 ?_, h3⟩
  have hz : truncInt (toneValue 440 1000 (0.3) 0 * 32767) = 0 := by
    have hv : toneValue 440 1000 (0.3) 0 = 0 := by
      simp [toneValue]
    rw [hv]
    simp [truncInt]
  simp only [generate_tone, num_samples_of, List.mem_map, List.mem_range]
  exact ⟨0, by norm_num, hz⟩

/-- Claim C9: `generate_tone(1000, 150, 16000, 0.3)` yields 2400 samples,
its first sample is 0, and no sample magnitude exceeds 9830. -/
theorem tone_concrete :
    (generate_tone 1000 150 16000 (0.3)).length = 2400 ∧
    (generate_tone 1000 150 16000 (0.3)).head? = some 0 ∧
    ∀ s ∈ generate_tone 1000 150 16000 (0.3), -9830 ≤ s ∧ s ≤ 9830 := by
  have hz : truncInt (toneValue 1000 16000 (0.3) 0 * 32767) = 0 := by
    have hv : toneValue 1000 16000 (0.3) 0 = 0 := by
      simp [toneValue]
    rw [hv]
    simp [truncInt]
  refine ⟨by simp [generate_tone, num_samples_of], ?_, ?_⟩
  · simp only [generate_tone, num_samples_of]
    rw [show (16000 * 150 / 1000 : Nat) = 2399 + 1 from by norm_num,
      List.range_succ_eq_map]
    simp [hz]
  · intro s hs
    simp only [generate_tone, List.mem_map, List.mem_range] at hs
    obtain ⟨i, _, hi⟩ := hs
    have hb := truncInt_bounds (toneValue 1000 16000 (0.3) i * 32767) 9830
      (by norm_num)
      (by
        have := toneValue_abs 1000 16000 i
        push_cast
        linarith)
    rw [← hi]
    omega

/-- Claim C9 witness: the first sample, 0, indeed has magnitude at most 9830. -/
theorem tone_concrete_witness : -9830 ≤ (0 : ℤ) ∧ (0 : ℤ) ≤ 9830 := by
  have hz : truncInt (toneValue 1000 16000 (0.3) 0 * 32767) = 0 := by
    have hv : toneValue 1000 16000 (0.3) 0 = 0 := by
      simp [toneValue]
    rw [hv]
    simp [truncInt]
  refine tone_concrete.2.2 0 ?_
  simp only [generate_tone, num_samples_of, List.mem_map, List.mem_range]
  exact ⟨0, by norm_num, hz⟩

theorem renderRow_shift (data : List Nat) (j : Nat) (h : 16 ≤ data.length) :
    renderRow data (16 + j) = renderRow (data.drop 16) j := by
  have hsl : byteSlice data (16 + j) 16 = byteSlice (data.drop 16) j 16 := by
    simp [byteSlice, List.drop_drop]
  have hcond : (16 + j + 16 < data.length) ↔ (j + 16 < (data.drop 16).length) := by
    simp [List.length_drop]
    omega
  rw [renderRow, renderRow, hsl]
  simp only [hcond]

theorem strJoin_cons (s : String) (l : List String) :
    strJoin (s :: l) = s ++ strJoin l := rfl

theorem specRender_cons (r : List Nat) (l : List (List Nat)) (hl : l ≠ []) :
    specRender (r :: l) =
      "    " ++ String.intercalate (", ") (r.map byteHex) ++ ",\n" ++ specRender l := by
  cases l with
  | nil => exact absurd rfl hl
  | cons c cs => rw [specRender]

theorem specChunks_ne_nil (l : List Nat) (h : l ≠ []) : specChunks l ≠ [] := by
  cases l with
  | nil => exact absurd rfl h
  | cons x xs =>
    rw [specChunks]
    simp

theorem byteRows_eq_specRender (data : List Nat) :
    byteRows data = specRender (specChunks data) := by
  induction data using specChunks.induct with
  | case1 =>
    rw [specChunks]
    rfl
  | case2 b rest ih =>
    by_cases hle : (b :: rest).length ≤ 16
    · have hcnt : ((b :: rest).length + 15) / 16 = 1 := by
        have h1 : 1 ≤ (b :: rest).length := by simp
        omega
      have hdrop : (b :: rest).drop 16 = [] := List.drop_eq_nil_of_le hle
      rw [byteRows, hcnt, show List.range 1 = [0] from rfl, List.map_cons,
        List.map_nil, List.map_cons, List.map_nil, strJoin_cons]
      rw [specChunks, hdrop]
      have hne : ¬ (0 * 16 + 16 < (b :: rest).length) := by omega
      rw [renderRow, if_neg hne]
      have htake : byteSlice (b :: rest) (0 * 16) 16 = (b :: rest).take 16 := by
        simp [byteSlice]
      rw [htake, show specChunks ([] : List Nat) = [] from by rw [specChunks],
        show specRender [(b :: rest).take 16] =
        "    " ++ String.intercalate (", ") (((b :: rest).take 16).map byteHex) ++ "\n" from
          rfl]
      simp [strJoin, String.append_assoc]
    · push_neg at hle
      have hcnt : ((b :: rest).length + 15) / 16 =
          (((b :: rest).drop 16).length + 15) / 16 + 1 := by
        simp only [List.length_drop]
        omega
      rw [byteRows, hcnt, List.range_succ_eq_map, List.map_cons, List.map_cons,
        strJoin_cons, List.map_map, List.map_map]
      have htail :
          List.map (((renderRow (b :: rest)) ∘ (fun k => k * 16)) ∘ Nat.succ)
            (List.range ((((b :: rest).drop 16).length + 15) / 16)) =
          List.map ((renderRow ((b :: rest).drop 16)) ∘ (fun k => k * 16))
            (List.range ((((b :: rest).drop 16).length + 15) / 16)) := by
        apply List.map_congr_left
        intro j _
        simp only [Function.comp_apply]
        rw [show Nat.succ j * 16 = 16 + j * 16 from by omega]
        exact renderRow_shift (b :: rest) (j * 16) (by omega)
      rw [htail]
      have hbr : strJoin
          (List.map ((renderRow ((b :: rest).drop 16)) ∘ (fun k => k * 16))
            (List.range ((((b :: rest).drop 16).length + 15) / 16))) =
          byteRows ((b :: rest).drop 16) := by
        rw [byteRows, List.map_map]
      rw [hbr, ih]
      have hpos : 0 * 16 + 16 < (b :: rest).length := by omega
      rw [renderRow, if_pos hpos]
      have htake : byteSlice (b :: rest) (0 * 16) 16 = (b :: rest).take 16 := by
        simp [byteSlice]
      rw [htake]
      have hdne : (b :: rest).drop 16 ≠ [] := by
        intro hnil
        have := List.drop_eq_nil_iff.mp hnil
        omega
      rw [specChunks, specRender_cons _ _ (specChunks_ne_nil _ hdne)]
      rw [show (",\n" : String) = "," ++ "\n" from rfl]
      simp [String.append_assoc]

/-- Claim C8: the row emitter renders the bytes exactly as the spec's
chunked description: successive rows of sixteen `0xHH` literals (uppercase
hex digits), comma-and-space separated within a row, a trailing comma after
every row except the last; a 17-byte input yields exactly two rows, a 16-byte
row with a trailing comma and a 1-byte row without one. -/
theorem rows_rendering :
    (∀ data : List Nat, byteRows data = specRender (specChunks data)) ∧
    (∀ data : List Nat, data.length = 17 →
      byteRows data =
        "    " ++ String.intercalate (", ") ((data.take 16).map byteHex) ++ ",\n" ++
          ("    " ++ String.intercalate (", ") ((data.drop 16).map byteHex) ++ "\n")) ∧
    (∀ b : Nat, b < 256 →
      byteHex b = String.mk ['0', 'x', hexDigit (b / 16), hexDigit (b % 16)] ∧
      hexDigit (b / 16) ∈ ("0123456789ABCDEF").toList ∧
      hexDigit (b % 16) ∈ ("0123456789ABCDEF").toList) := by
  have hdig : ∀ n : Nat, n < 16 → hexDigit n ∈ ("0123456789ABCDEF").toList := by
    decide
  refine ⟨byteRows_eq_specRender, ?_, ?_⟩
  · intro data h17
    rw [byteRows_eq_specRender]
    have h1 : specChunks data = data.take 16 :: specChunks (data.drop 16) := by
      cases data with
      | nil => simp at h17
      | cons b r => rw [specChunks]
    have hlen1 : (data.drop 16).length = 1 := by
      simp [h17]
    have h2 : specChunks (data.drop 16) = [data.drop 16] := by
      cases hd : data.drop 16 with
      | nil =>
        rw [hd] at hlen1
        simp at hlen1
      | cons x xs =>
        rw [hd] at hlen1
        simp at hlen1
        subst hlen1
        rw [specChunks]
        rw [show specChunks (List.drop 16 [x]) = [] from by
          rw [show List.drop 16 [x] = ([] : List Nat) from rfl, specChunks]]
        rfl
    rw [h1, h2, specRender_cons _ _ (by simp)]
    rfl
  · intro b hb
    refine ⟨rfl, hdig _ (by omega), hdig _ (by omega)⟩

/-- Claim C8 witness: a concrete 17-byte input produces two rows with the
comma after the first row only, and byte 255 renders as two uppercase
hexadecimal digits after the `0x` marker. -/
theorem rows_rendering_witness :
    byteRows [0, 1, 2, 3, 4, 5, 6, 7, 8, 9, 10, 11, 12, 13, 14, 15, 255] =
      "    " ++ String.intercalate (", ")
        (([0, 1, 2, 3, 4, 5, 6, 7, 8, 9, 10, 11, 12, 13, 14, 15, 255] : List Nat).take 16
          |>.map byteHex) ++ ",\n" ++
        ("    " ++ String.intercalate (", ")
          (([0, 1, 2, 3, 4, 5, 6, 7, 8, 9, 10, 11, 12, 13, 14, 15, 255] : List Nat).drop 16
            |>.map byteHex) ++ "\n") ∧
    (byteHex 255 = String.mk ['0', 'x', hexDigit (255 / 16), hexDigit (255 % 16)] ∧
      hexDigit (255 / 16) ∈ ("0123456789ABCDEF").toList ∧
      hexDigit (255 % 16) ∈ ("0123456789ABCDEF").toList) :=
  ⟨rows_rendering.2.1 _ (by decide), rows_rendering.2.2 255 (by decide)⟩
